import Mathlib

/-!
Verification of the pngchat chunk codec: a shallow embedding of
`src/chunk_type.rs`, `src/chunk.rs`, `src/utils.rs` and the `Png`
chunk-sequence container, together with theorems settling the frozen
claims about the codec.

Bytes (`u8`) are modelled as natural numbers, with `< 256` hypotheses
(`IsBytes`) added where a claim quantifies over arbitrary byte buffers.
32-bit values (`u32`) are natural numbers reduced modulo `2^32` exactly
where the Rust code casts (`as u32`).  Fallible Rust code returning
`Result` is modelled with `Except`; code that can also terminate
abnormally (slice-index panics, `.unwrap()`) is modelled with the
three-way result type `PResult` whose `panic` constructor records an
abnormal termination.
-/

namespace PngChat

/-- A buffer of `u8` values: every entry is below 256. -/
def IsBytes (l : List Nat) : Prop := ∀ b ∈ l, b < 256

instance (l : List Nat) : Decidable (IsBytes l) := by
  unfold IsBytes; infer_instance

/-- The error type of `src/error.rs`, restricted to the `Custom` variant,
the only one the chunk codec itself produces. -/
inductive Error where
  | custom (msg : String)
deriving DecidableEq

/-- Result of running a piece of Rust code that may return a value,
return an error to the caller, or terminate abnormally (a panic from an
out-of-range slice index or an `.unwrap()` on an `Err`). -/
inductive PResult (α : Type) where
  | ok (a : α)
  | err (e : Error)
  | panic (msg : String)
deriving DecidableEq

/-- `u32::to_be_bytes`: big-endian byte encoding of a 32-bit value. -/
def u32_to_be_bytes (n : Nat) : List Nat :=
  [n / 16777216 % 256, n / 65536 % 256, n / 256 % 256, n % 256]

/-- `u32::from_be_bytes` on a 4-byte slice (every call site passes a
slice of length exactly 4, so the catch-all branch is unreachable). -/
def u32_from_be_bytes (l : List Nat) : Nat :=
  match l with
  | [a, b, c, d] => a * 16777216 + b * 65536 + c * 256 + d
  | _ => 0

/-- The reflected CRC-32 polynomial of the ISO-HDLC algorithm
(`CRC_32_ISO_HDLC` of the `crc` crate). -/
def CRC_32_ISO_HDLC_POLY : Nat := 3988292384

/-- One bit step of the reflected CRC-32 update. -/
def crcStep (r : Nat) : Nat :=
  if r % 2 = 1 then (r / 2) ^^^ CRC_32_ISO_HDLC_POLY else r / 2

/-- `n` bit steps of the reflected CRC-32 update. -/
def crcBits : Nat → Nat → Nat
  | 0, r => r
  | n + 1, r => crcBits n (crcStep r)

/-- `checksum_32(&CRC_32_ISO_HDLC, bytes)` of `src/utils.rs`: the
standard CRC-32 (init `0xFFFFFFFF`, reflected input/output, final xor
`0xFFFFFFFF`).  Each data item is masked to its low byte, which agrees
with the Rust function on every `u8` input. -/
def checksum_32 (data : List Nat) : Nat :=
  (data.foldl (fun r b => crcBits 8 (r ^^^ (b % 256))) 4294967295) ^^^ 4294967295

/-- `u8::is_ascii_alphabetic` seen on a byte value. -/
def isAsciiAlphaByte (b : Nat) : Bool :=
  (65 ≤ b && b ≤ 90) || (97 ≤ b && b ≤ 122)

/-- `char::is_uppercase` restricted to the ASCII range, the only range a
validated chunk-type byte can lie in. -/
def isUppercaseByte (b : Nat) : Bool := 65 ≤ b && b ≤ 90

/-- `char::is_lowercase` restricted to the ASCII range, the only range a
validated chunk-type byte can lie in. -/
def isLowercaseByte (b : Nat) : Bool := 97 ≤ b && b ≤ 122

/-- `ChunkType` of `src/chunk_type.rs`: a 4-byte chunk type code.  The
Rust field is `[u8; CHUNK_SIZE]`; the list always has length 4 for any
value produced by the constructors below. -/
structure ChunkType where
  bytes : List Nat
deriving DecidableEq

/-- The well-formedness the Rust type system and the validating
constructors guarantee: exactly 4 bytes, all ASCII letters. -/
def ChunkType.Valid (t : ChunkType) : Prop :=
  t.bytes.length = 4 ∧ ∀ b ∈ t.bytes, isAsciiAlphaByte b = true

instance (t : ChunkType) : Decidable t.Valid := by
  unfold ChunkType.Valid; infer_instance

/-- `ChunkType::at_char`: the byte at a given index (the Rust array
index is always in bounds; `getD` with default 0 is total). -/
def ChunkType.at_char (t : ChunkType) (i : Nat) : Nat := t.bytes.getD i 0

/-- `ChunkType::is_critical`. -/
def ChunkType.is_critical (t : ChunkType) : Bool := isUppercaseByte (t.at_char 0)

/-- `ChunkType::is_public`. -/
def ChunkType.is_public (t : ChunkType) : Bool := isUppercaseByte (t.at_char 1)

/-- `ChunkType::is_reserved_bit_valid`. -/
def ChunkType.is_reserved_bit_valid (t : ChunkType) : Bool := isUppercaseByte (t.at_char 2)

/-- `ChunkType::is_safe_to_copy`. -/
def ChunkType.is_safe_to_copy (t : ChunkType) : Bool := isLowercaseByte (t.at_char 3)

/-- `ChunkType::is_valid`. -/
def ChunkType.is_valid (t : ChunkType) : Bool :=
  !t.is_public && t.is_reserved_bit_valid

/-- `TryFrom<[u8; 4]> for ChunkType`. -/
def ChunkType.try_from (bs : List Nat) : Except Error ChunkType :=
  if bs.all isAsciiAlphaByte then .ok ⟨bs⟩
  else .error (.custom ("Invalid ascii character, must be alphabetic"))

/-- The UTF-8 encoding of one character (`str::as_bytes` applied to a
single char). -/
def utf8Bytes (c : Char) : List Nat :=
  let n := c.toNat
  if n < 128 then [n]
  else if n < 2048 then [192 + n / 64, 128 + n % 64]
  else if n < 65536 then [224 + n / 4096, 128 + n / 64 % 64, 128 + n % 64]
  else [240 + n / 262144, 128 + n / 4096 % 64, 128 + n / 64 % 64, 128 + n % 64]

/-- `str::as_bytes` of a string modelled as its character list. -/
def strBytes (s : List Char) : List Nat := (s.map utf8Bytes).flatten

/-- `str::len`: length in UTF-8 bytes. -/
def strLen (s : List Char) : Nat := (strBytes s).length

/-- `char::is_ascii_alphabetic`. -/
def charIsAsciiAlpha (c : Char) : Bool := isAsciiAlphaByte c.toNat

/-- `FromStr for ChunkType` (`ChunkType::from_str`). -/
def ChunkType.from_str (s : List Char) : Except Error ChunkType :=
  if strLen s ≠ 4 then .error (.custom ("Invalid length of chunk"))
  else if !(s.all charIsAsciiAlpha) then
    .error (.custom ("Invalid ascii character, must be alphabetic"))
  else .ok ⟨strBytes s⟩

/-- `Chunk` of `src/chunk.rs`. -/
structure Chunk where
  length : Nat
  chunk_type : ChunkType
  chunk_data : List Nat
  crc : Nat
deriving DecidableEq

/-- `Chunk::new`: `length` is `chunk_data.len() as u32` (hence the
`% 2^32`), `crc` the checksum over type code bytes followed by data. -/
def Chunk.new (chunk_type : ChunkType) (chunk_data : List Nat) : Chunk :=
  { length := chunk_data.length % 4294967296
    chunk_type := chunk_type
    chunk_data := chunk_data
    crc := checksum_32 (chunk_type.bytes ++ chunk_data) }

/-- `Chunk::as_bytes`: big-endian length, type code, data, big-endian crc. -/
def Chunk.as_bytes (c : Chunk) : List Nat :=
  u32_to_be_bytes c.length ++ c.chunk_type.bytes ++ c.chunk_data ++ u32_to_be_bytes c.crc

/-- The Rust slice `l[a..b]`. -/
def listSlice (a b : Nat) (l : List Nat) : List Nat := (l.take b).drop a

/-- `TryFrom<&[u8]> for Chunk` (`Chunk::try_from`).  The first guard
models the panic of `&bytes[0..4]` on a slice shorter than 4 bytes; the
`.panic` in the type-code branch models the `.unwrap()` on the result of
`ChunkType::try_from`.  The Rust locals `length`, `chunk_data`, `crc`
are written out in place: `length` is `u32_from_be_bytes (bytes.take 4)`,
`chunk_data` is the slice `bytes[8 .. len - 4]` and `crc` decodes the
slice `bytes[len - 4 .. len]`. -/
def Chunk.try_from (bytes : List Nat) : PResult Chunk :=
  if bytes.length < 4 then
    .panic ("range end index 4 out of range for slice")
  else if bytes.length ≠ u32_from_be_bytes (bytes.take 4) + 12 then
    .err (.custom ("Chunk contains incorrect length information"))
  else
    match ChunkType.try_from (listSlice 4 8 bytes) with
    | .error _ => .panic ("called unwrap on an Err value")
    | .ok chunk_type =>
      if checksum_32 (chunk_type.bytes ++ listSlice 8 (bytes.length - 4) bytes)
          ≠ u32_from_be_bytes (listSlice (bytes.length - 4) bytes.length bytes) then
        .err (.custom ("CRC checksum fails"))
      else
        .ok { length := u32_from_be_bytes (bytes.take 4)
              chunk_type := chunk_type
              chunk_data := listSlice 8 (bytes.length - 4) bytes
              crc := u32_from_be_bytes (listSlice (bytes.length - 4) bytes.length bytes) }

/-- Modelled from the spec: the fixed 8-byte PNG file signature of the
`Png` container (`src/png.rs` is declared in `lib.rs` but its source is
not present; spec section 4.3). -/
def PNG_SIGNATURE : List Nat := [137, 80, 78, 71, 13, 10, 26, 10]

/-- Modelled from the spec: `Png` (the ChunkSequence), an ordered list
of chunks behind the fixed signature (`src/png.rs` missing; spec
sections 2 and 4.3). -/
structure Png where
  chunks : List Chunk
deriving DecidableEq

/-- Modelled from the spec: `Png::as_bytes`, the 8-byte signature
followed by each chunk's serialization in sequence order (`src/png.rs`
missing; spec section 4.3). -/
def Png.as_bytes (p : Png) : List Nat :=
  PNG_SIGNATURE ++ (p.chunks.map Chunk.as_bytes).flatten

/-- Modelled from the spec: the chunk-reading loop of `Png` parsing.
Repeatedly read a 4-byte length field, slice the chunk's `length + 12`
bytes, decode through `Chunk.try_from`, and continue until the buffer is
exhausted exactly; a trailing partial chunk is a malformed-chunk error
(`src/png.rs` missing; spec section 4.3 step 2). -/
def parseChunks (bytes : List Nat) : PResult (List Chunk) :=
  if _h0 : bytes.length = 0 then .ok []
  else if _h4 : bytes.length < 4 then
    .err (.custom ("trailing partial chunk"))
  else if _hL : bytes.length < u32_from_be_bytes (bytes.take 4) + 12 then
    .err (.custom ("trailing partial chunk"))
  else
    match Chunk.try_from (bytes.take (u32_from_be_bytes (bytes.take 4) + 12)) with
    | .panic m => .panic m
    | .err e => .err e
    | .ok c =>
      match parseChunks (bytes.drop (u32_from_be_bytes (bytes.take 4) + 12)) with
      | .panic m => .panic m
      | .err e => .err e
      | .ok cs => .ok (c :: cs)
termination_by bytes.length
decreasing_by
  simp only [List.length_drop]
  omega

/-- Modelled from the spec: `Png` whole-buffer parsing.  Verify the
leading 8 bytes equal the fixed signature (else a bad-signature error),
then decode chunks back-to-back (`src/png.rs` missing; spec section
4.3). -/
def Png.try_from (bytes : List Nat) : PResult Png :=
  if bytes.take 8 ≠ PNG_SIGNATURE then .err (.custom ("Bad png signature"))
  else
    match parseChunks (bytes.drop 8) with
    | .panic m => .panic m
    | .err e => .err e
    | .ok cs => .ok ⟨cs⟩

/-- The well-formedness every Rust `Chunk` value enjoys by construction
(spec section 3): a validated 4-letter type code, the `length` field
counting the payload bytes and fitting the `u32` field, and the crc
invariant `crc == CRC32(type_code.bytes ++ payload)`. -/
def ChunkWF (c : Chunk) : Prop :=
  c.chunk_type.Valid
    ∧ c.length = c.chunk_data.length
    ∧ c.length < 4294967296
    ∧ c.crc = checksum_32 (c.chunk_type.bytes ++ c.chunk_data)

instance (c : Chunk) : Decidable (ChunkWF c) := by
  unfold ChunkWF; infer_instance

/-- The type code `"RuSt"`. -/
def rustT : ChunkType := ⟨[82, 117, 83, 116]⟩

/-- The type code `"Rust"`. -/
def rustLowerT : ChunkType := ⟨[82, 117, 115, 116]⟩

/-- The 42-byte test payload of `src/chunk.rs`. -/
def secret_message : List Nat :=
  ("This is where your secret message will be!".toList).map Char.toNat

/-- A payload of `2^32` zero bytes: `chunk_data.len() as u32` truncates
it to 0. -/
def bigPayload : List Nat := List.replicate 4294967296 0

/-- A 54-byte chunk buffer whose trailing CRC field (2882656333) is one
off the correct checksum 2882656334 (the buffer of the Rust test
`test_invalid_chunk_from_bytes`). -/
def c4_input : List Nat :=
  [0, 0, 0, 42] ++ rustT.bytes ++ secret_message ++ u32_to_be_bytes 2882656333

/-- A 12-byte buffer whose declared length field (5) disagrees with the
12-byte total size (which would require length 0). -/
def c5_input : List Nat := [0, 0, 0, 5, 65, 66, 67, 68, 0, 0, 0, 0]

/-- A 12-byte buffer with a correct length field (0) but a type code
`"1234"` made of non-alphabetic bytes. -/
def c6_input : List Nat := [0, 0, 0, 0, 49, 50, 51, 52, 0, 0, 0, 0]

/-- A tiny two-byte chunk used for concrete witnesses. -/
def chunkEx : Chunk := Chunk.new rustT ([72, 105])

/-- A one-chunk `Png` used for concrete witnesses. -/
def pngEx : Png := ⟨[chunkEx]⟩

/-! ## Helper lemmas -/

theorem xor_lt_u32 {a b : Nat} (ha : a < 4294967296) (hb : b < 4294967296) :
    a ^^^ b < 4294967296 := by
  have h32 : (4294967296 : Nat) = 2 ^ 32 := by norm_num
  rw [h32] at ha hb ⊢
  exact Nat.xor_lt_two_pow ha hb

theorem crcStep_lt {r : Nat} (h : r < 4294967296) : crcStep r < 4294967296 := by
  unfold crcStep
  split
  · exact xor_lt_u32 (by omega) (by norm_num [CRC_32_ISO_HDLC_POLY])
  · omega

theorem crcBits_lt : ∀ (n : Nat) {r : Nat}, r < 4294967296 → crcBits n r < 4294967296
  | 0, _, h => h
  | n + 1, _, h => crcBits_lt n (crcStep_lt h)

theorem checksum_32_lt (data : List Nat) : checksum_32 data < 4294967296 := by
  unfold checksum_32
  have hf : ∀ (l : List Nat) (r : Nat), r < 4294967296 →
      l.foldl (fun r b => crcBits 8 (r ^^^ (b % 256))) r < 4294967296 := by
    intro l
    induction l with
    | nil => intro r h; exact h
    | cons b l ih =>
      intro r h
      simp only [List.foldl_cons]
      exact ih _ (crcBits_lt 8 (xor_lt_u32 h (by omega)))
  exact xor_lt_u32 (hf _ _ (by norm_num)) (by norm_num)

theorem u32_be_round (n : Nat) (h : n < 4294967296) :
    u32_from_be_bytes (u32_to_be_bytes n) = n := by
  simp only [u32_to_be_bytes, u32_from_be_bytes]
  omega

theorem u32_to_be_bytes_length (n : Nat) : (u32_to_be_bytes n).length = 4 := rfl

theorem Chunk.new_length (t : ChunkType) (p : List Nat) :
    (Chunk.new t p).length = p.length % 4294967296 := rfl

theorem Chunk.new_as_bytes (t : ChunkType) (p : List Nat) :
    (Chunk.new t p).as_bytes
      = u32_to_be_bytes (p.length % 4294967296)
        ++ (t.bytes ++ (p ++ u32_to_be_bytes (checksum_32 (t.bytes ++ p)))) := by
  simp only [Chunk.as_bytes, Chunk.new, List.append_assoc]

theorem chunkType_try_from_of_valid (t : ChunkType) (h : t.Valid) :
    ChunkType.try_from t.bytes = .ok t := by
  unfold ChunkType.try_from
  rw [if_pos (List.all_eq_true.mpr h.2)]

theorem as_bytes_length (c : Chunk) (h : ChunkWF c) :
    c.as_bytes.length = c.length + 12 := by
  obtain ⟨⟨htl, _⟩, hlen, _, _⟩ := h
  simp [Chunk.as_bytes, u32_to_be_bytes, htl, ← hlen]
  omega

/-- Parsing the serialization of any well-formed chunk gives back the
chunk. -/
theorem chunk_roundtrip (c : Chunk) (h : ChunkWF c) :
    Chunk.try_from c.as_bytes = .ok c := by
  obtain ⟨L, t, p, crc⟩ := c
  obtain ⟨⟨htl, hta⟩, hlen, hlt, hcrc⟩ := h
  simp only at htl hta hlen hlt hcrc
  have hab : (Chunk.mk L t p crc).as_bytes
      = u32_to_be_bytes L ++ (t.bytes ++ (p ++ u32_to_be_bytes crc)) := by
    simp [Chunk.as_bytes]
  rw [hab]
  set bs : List Nat := u32_to_be_bytes L ++ (t.bytes ++ (p ++ u32_to_be_bytes crc)) with hbs
  have hlenall : bs.length = L + 12 := by
    simp [hbs, u32_to_be_bytes_length, htl, ← hlen]
    omega
  have htake4 : bs.take 4 = u32_to_be_bytes L := List.take_left' rfl
  have hfromL : u32_from_be_bytes (bs.take 4) = L := by
    rw [htake4]; exact u32_be_round L hlt
  have hdrop4 : bs.drop 4 = t.bytes ++ (p ++ u32_to_be_bytes crc) :=
    List.drop_left' rfl
  have hslice48 : listSlice 4 8 bs = t.bytes := by
    unfold listSlice
    rw [List.drop_take, hdrop4]
    exact List.take_left' htl
  have hdrop8 : bs.drop 8 = p ++ u32_to_be_bytes crc := by
    have hre : bs = (u32_to_be_bytes L ++ t.bytes) ++ (p ++ u32_to_be_bytes crc) := by
      simp [hbs]
    rw [hre]
    exact List.drop_left' (by simp [u32_to_be_bytes_length, htl])
  have hdata : listSlice 8 (L + 8) bs = p := by
    unfold listSlice
    rw [List.drop_take, hdrop8]
    have : L + 8 - 8 = L := by omega
    rw [this]
    exact List.take_left' hlen.symm
  have hcrcslice : listSlice (L + 8) (L + 12) bs = u32_to_be_bytes crc := by
    unfold listSlice
    have htk : bs.take (L + 12) = bs := by
      rw [← hlenall]; exact List.take_length bs
    rw [htk]
    have hre : bs = (u32_to_be_bytes L ++ (t.bytes ++ p)) ++ u32_to_be_bytes crc := by
      simp [hbs]
    rw [hre]
    exact List.drop_left' (by simp [u32_to_be_bytes_length, htl, ← hlen]; omega)
  have hcrcval : u32_from_be_bytes (u32_to_be_bytes crc) = crc :=
    u32_be_round crc (by rw [hcrc]; exact checksum_32_lt _)
  unfold Chunk.try_from
  rw [if_neg (show ¬ bs.length < 4 by omega)]
  rw [hfromL]
  rw [if_neg (show ¬ bs.length ≠ L + 12 by omega)]
  rw [hslice48, chunkType_try_from_of_valid t ⟨htl, hta⟩]
  have hm4 : bs.length - 4 = L + 8 := by omega
  rw [hm4, hlenall, hdata, hcrcslice, hcrcval]
  dsimp only
  rw [if_neg (show ¬ checksum_32 (t.bytes ++ p) ≠ crc from fun hne => hne hcrc.symm)]

/-- Inversion of a successful chunk parse: the buffer length agrees with
the declared length plus 12, and the returned chunk's fields satisfy the
length and crc invariants. -/
theorem try_from_ok_inv {bytes : List Nat} {ch : Chunk}
    (h : Chunk.try_from bytes = .ok ch) :
    bytes.length = u32_from_be_bytes (bytes.take 4) + 12
    ∧ ch.length = u32_from_be_bytes (bytes.take 4)
    ∧ ch.length = ch.chunk_data.length
    ∧ ch.crc = checksum_32 (ch.chunk_type.bytes ++ ch.chunk_data) := by
  unfold Chunk.try_from at h
  by_cases h1 : bytes.length < 4
  · rw [if_pos h1] at h; exact PResult.noConfusion h
  rw [if_neg h1] at h
  by_cases h2 : bytes.length ≠ u32_from_be_bytes (bytes.take 4) + 12
  · rw [if_pos h2] at h; exact PResult.noConfusion h
  rw [if_neg h2] at h
  rw [not_ne_iff] at h2
  cases htf : ChunkType.try_from (listSlice 4 8 bytes) with
  | error e => rw [htf] at h; exact PResult.noConfusion h
  | ok ct =>
    rw [htf] at h
    dsimp only at h
    by_cases h3 : checksum_32 (ct.bytes ++ listSlice 8 (bytes.length - 4) bytes)
        ≠ u32_from_be_bytes (listSlice (bytes.length - 4) bytes.length bytes)
    · rw [if_pos h3] at h; exact PResult.noConfusion h
    rw [if_neg h3] at h
    rw [not_ne_iff] at h3
    cases h
    refine ⟨h2, rfl, ?_, ?_⟩
    · show u32_from_be_bytes (bytes.take 4) = (listSlice 8 (bytes.length - 4) bytes).length
      unfold listSlice
      have htk : (bytes.take (bytes.length - 4)).length = bytes.length - 4 := by
        rw [List.length_take]
        exact inf_eq_left.mpr (Nat.sub_le _ _)
      rw [List.length_drop, htk]
      omega
    · exact h3.symm

theorem parseChunks_nil : parseChunks [] = .ok [] := by
  rw [parseChunks]
  simp

/-- Parsing a back-to-back serialization of well-formed chunks yields
exactly those chunks. -/
theorem parseChunks_flatten (cs : List Chunk) (h : ∀ c ∈ cs, ChunkWF c) :
    parseChunks ((cs.map Chunk.as_bytes).flatten) = .ok cs := by
  induction cs with
  | nil =>
    simp only [List.map_nil, List.flatten_nil]
    exact parseChunks_nil
  | cons c cs ih =>
    have hc : ChunkWF c := h c (List.mem_cons_self c cs)
    have hrest : parseChunks ((cs.map Chunk.as_bytes).flatten) = .ok cs :=
      ih (fun c' hc' => h c' (List.mem_cons_of_mem c hc'))
    simp only [List.map_cons, List.flatten_cons]
    set rest := (cs.map Chunk.as_bytes).flatten with hrestdef
    set bs := c.as_bytes ++ rest with hbs
    have habl : c.as_bytes.length = c.length + 12 := as_bytes_length c hc
    have hlt : c.length < 4294967296 := hc.2.2.1
    have hlenall : bs.length = c.length + 12 + rest.length := by
      rw [hbs, List.length_append, habl]
    have htake4 : bs.take 4 = c.as_bytes.take 4 := by
      rw [hbs]
      exact List.take_append_of_le_length (by omega)
    have htake4' : c.as_bytes.take 4 = u32_to_be_bytes c.length := by
      have hre : c.as_bytes
          = u32_to_be_bytes c.length
            ++ (c.chunk_type.bytes ++ (c.chunk_data ++ u32_to_be_bytes c.crc)) := by
        simp [Chunk.as_bytes]
      rw [hre]
      exact List.take_left' rfl
    have hfromL : u32_from_be_bytes (bs.take 4) = c.length := by
      rw [htake4, htake4']
      exact u32_be_round _ hlt
    have htakechunk : bs.take (c.length + 12) = c.as_bytes := by
      rw [hbs]
      exact List.take_left' habl
    have hdropchunk : bs.drop (c.length + 12) = rest := by
      rw [hbs]
      exact List.drop_left' habl
    rw [parseChunks]
    rw [dif_neg (show ¬ bs.length = 0 by omega)]
    rw [dif_neg (show ¬ bs.length < 4 by omega)]
    rw [hfromL]
    rw [dif_neg (show ¬ bs.length < c.length + 12 by omega)]
    rw [htakechunk, chunk_roundtrip c hc]
    dsimp only
    rw [hdropchunk, hrest]

/-- Whole-file round trip for well-formed chunk lists. -/
theorem png_roundtrip (S : Png) (hwf : ∀ c ∈ S.chunks, ChunkWF c) :
    Png.try_from S.as_bytes = .ok S := by
  obtain ⟨cs⟩ := S
  have hwf' : ∀ c ∈ cs, ChunkWF c := hwf
  unfold Png.try_from Png.as_bytes
  dsimp only
  have h8 : (PNG_SIGNATURE ++ (cs.map Chunk.as_bytes).flatten).take 8 = PNG_SIGNATURE :=
    List.take_left' rfl
  rw [if_neg (show ¬ (PNG_SIGNATURE ++ (cs.map Chunk.as_bytes).flatten).take 8
      ≠ PNG_SIGNATURE from fun hne => hne h8)]
  rw [List.drop_left' (show PNG_SIGNATURE.length = 8 from rfl)]
  rw [parseChunks_flatten cs hwf']

/-! ## Claims -/

set_option maxRecDepth 1000000

/-- C1 (amended): for every valid type code `t` and every payload `p` of
fewer than `2^32` bytes, parsing the serialization of `Chunk::new(t, p)`
succeeds and yields a chunk equal to `Chunk::new(t, p)`.  (The bound is
forced by `chunk_data.len() as u32` in `Chunk::new`, see
`c1_counterexample`.) -/
theorem c1_chunk_roundtrip_amended (t : ChunkType) (p : List Nat)
    (hv : t.Valid) (hp : p.length < 4294967296) :
    Chunk.try_from (Chunk.new t p).as_bytes = .ok (Chunk.new t p) := by
  apply chunk_roundtrip
  refine ⟨hv, ?_, ?_, rfl⟩
  · show p.length % 4294967296 = p.length
    exact Nat.mod_eq_of_lt hp
  · show p.length % 4294967296 < 4294967296
    exact Nat.mod_lt _ (by norm_num)

/-- Witness for C1 at the type code `"RuSt"` and the 42-byte test
payload. -/
theorem c1_chunk_roundtrip_witness :
    rustT.Valid ∧ secret_message.length < 4294967296
    ∧ Chunk.try_from (Chunk.new rustT secret_message).as_bytes
        = .ok (Chunk.new rustT secret_message) :=
  ⟨by decide, by decide,
    c1_chunk_roundtrip_amended rustT secret_message (by decide) (by decide)⟩

/-- C1 counterexample: for a payload of `2^32` bytes the `as u32` cast
truncates the stored length to 0, so the serialized buffer fails the
length check on parse and the round trip breaks. -/
theorem c1_counterexample :
    Chunk.try_from (Chunk.new rustT bigPayload).as_bytes
      ≠ .ok (Chunk.new rustT bigPayload) := by
  have hbp : bigPayload.length = 4294967296 := by
    show (List.replicate 4294967296 0).length = 4294967296
    rw [List.length_replicate]
  have hform := Chunk.new_as_bytes rustT bigPayload
  rw [hbp, Nat.mod_self] at hform
  have hlen : (Chunk.new rustT bigPayload).as_bytes.length = 4294967296 + 12 := by
    rw [hform, List.length_append, List.length_append, List.length_append,
      u32_to_be_bytes_length, u32_to_be_bytes_length, hbp]
    rw [show rustT.bytes.length = 4 from rfl]
  have htake : (Chunk.new rustT bigPayload).as_bytes.take 4 = u32_to_be_bytes 0 := by
    rw [hform]
    exact List.take_left' rfl
  have hfrom : u32_from_be_bytes ((Chunk.new rustT bigPayload).as_bytes.take 4) = 0 := by
    rw [htake]
    decide
  have herr : Chunk.try_from (Chunk.new rustT bigPayload).as_bytes
      = .err (.custom ("Chunk contains incorrect length information")) := by
    unfold Chunk.try_from
    rw [if_neg (show ¬ (Chunk.new rustT bigPayload).as_bytes.length < 4 by
      rw [hlen]; decide)]
    rw [hfrom]
    rw [if_pos (show (Chunk.new rustT bigPayload).as_bytes.length ≠ 0 + 12 by
      rw [hlen]; decide)]
  rw [herr]
  exact fun h => PResult.noConfusion h

/-- C2: for every `Png` whose chunks carry the data-model invariants of
spec section 3 (`ChunkWF`), parsing `serialize(S)` succeeds and yields a
sequence equal to `S`, and serializing the parsed result therefore
yields bytes identical to `serialize(S)`. -/
theorem c2_png_roundtrip (S : Png) (hwf : ∀ c ∈ S.chunks, ChunkWF c) :
    Png.try_from S.as_bytes = .ok S
    ∧ ∀ S', Png.try_from S.as_bytes = .ok S' → S'.as_bytes = S.as_bytes := by
  have h1 := png_roundtrip S hwf
  refine ⟨h1, ?_⟩
  intro S' h2
  rw [h1] at h2
  cases h2
  rfl

/-- Witness for C2 at a one-chunk sequence. -/
theorem c2_png_roundtrip_witness :
    (∀ c ∈ pngEx.chunks, ChunkWF c) ∧ Png.try_from pngEx.as_bytes = .ok pngEx :=
  ⟨by decide, (c2_png_roundtrip pngEx (by decide)).1⟩

/-- C3 (amended): every chunk from `Chunk::new` or a successful parse
satisfies `crc == CRC32(type_code.bytes ++ payload)`; `Chunk::new` is
total and stores `length == payload.len() % 2^32`, which equals
`payload.len()` whenever the payload is shorter than `2^32` bytes; a
parsed chunk always satisfies `length == payload.len()`.  (The `% 2^32`
is forced by the `as u32` cast, see `c3_counterexample`.) -/
theorem c3_invariants_amended (t : ChunkType) (p : List Nat)
    (bytes : List Nat) (ch : Chunk) (hparse : Chunk.try_from bytes = .ok ch) :
    (Chunk.new t p).crc = checksum_32 (t.bytes ++ p)
    ∧ (Chunk.new t p).length = p.length % 4294967296
    ∧ (p.length < 4294967296 → (Chunk.new t p).length = p.length)
    ∧ ch.crc = checksum_32 (ch.chunk_type.bytes ++ ch.chunk_data)
    ∧ ch.length = ch.chunk_data.length := by
  obtain ⟨_, _, hl, hc⟩ := try_from_ok_inv hparse
  exact ⟨rfl, rfl, fun h => Nat.mod_eq_of_lt h, hc, hl⟩

/-- Witness for C3 at the two-byte chunk `chunkEx` and its own
serialization. -/
theorem c3_invariants_witness :
    (Chunk.new rustT ([72, 105])).crc = checksum_32 (rustT.bytes ++ ([72, 105]))
    ∧ (Chunk.new rustT ([72, 105])).length = ([72, 105] : List Nat).length % 4294967296
    ∧ (([72, 105] : List Nat).length < 4294967296
        → (Chunk.new rustT ([72, 105])).length = ([72, 105] : List Nat).length)
    ∧ chunkEx.crc = checksum_32 (chunkEx.chunk_type.bytes ++ chunkEx.chunk_data)
    ∧ chunkEx.length = chunkEx.chunk_data.length :=
  c3_invariants_amended rustT ([72, 105]) chunkEx.as_bytes chunkEx (by decide)

/-- C3 counterexample: for a `2^32`-byte payload, `Chunk::new` stores
`length == 0`, not the payload length. -/
theorem c3_counterexample :
    (Chunk.new rustT bigPayload).length ≠ bigPayload.length := by
  have hbp : bigPayload.length = 4294967296 := by
    show (List.replicate 4294967296 0).length = 4294967296
    rw [List.length_replicate]
  rw [Chunk.new_length, hbp, Nat.mod_self]
  decide

/-- C4: on a buffer whose total length matches the declared length and
whose type-code field is valid, a mismatch between the embedded CRC and
the recomputed CRC-32 over `type_code.bytes ++ payload` makes parse fail
with the checksum error; and any successful parse returns a chunk whose
stored crc equals the recomputed checksum. -/
theorem c4_checksum_mismatch (bytes : List Nat) (hb : IsBytes bytes)
    (hlen : bytes.length = u32_from_be_bytes (bytes.take 4) + 12)
    (htype : (listSlice 4 8 bytes).all isAsciiAlphaByte = true) :
    (u32_from_be_bytes (listSlice (bytes.length - 4) bytes.length bytes)
        ≠ checksum_32 (listSlice 4 8 bytes ++ listSlice 8 (bytes.length - 4) bytes)
      → Chunk.try_from bytes = .err (.custom ("CRC checksum fails")))
    ∧ ∀ ch, Chunk.try_from bytes = .ok ch
        → ch.crc = checksum_32 (ch.chunk_type.bytes ++ ch.chunk_data) := by
  constructor
  · intro hmis
    unfold Chunk.try_from
    rw [if_neg (show ¬ bytes.length < 4 by omega)]
    rw [if_neg (show ¬ bytes.length ≠ u32_from_be_bytes (bytes.take 4) + 12
        from fun hne => hne hlen)]
    have htf : ChunkType.try_from (listSlice 4 8 bytes) = .ok ⟨listSlice 4 8 bytes⟩ := by
      unfold ChunkType.try_from
      rw [if_pos htype]
    rw [htf]
    dsimp only
    rw [if_pos hmis.symm]
  · intro ch hch
    exact (try_from_ok_inv hch).2.2.2

/-- Witness for C4 at the 54-byte buffer of the Rust test
`test_invalid_chunk_from_bytes` (embedded CRC one off the real one). -/
theorem c4_checksum_mismatch_witness :
    Chunk.try_from c4_input = .err (.custom ("CRC checksum fails")) :=
  (c4_checksum_mismatch c4_input (by decide) (by decide) (by decide)).1 (by decide)

/-- C5: on any buffer of at least 4 bytes whose total length differs
from the declared big-endian length plus 12, parse fails with the
malformed-chunk error; and parse can succeed only when the total length
matches. -/
theorem c5_length_check (bytes : List Nat) (hb : IsBytes bytes)
    (h4 : 4 ≤ bytes.length) :
    (bytes.length ≠ u32_from_be_bytes (bytes.take 4) + 12
      → Chunk.try_from bytes = .err (.custom ("Chunk contains incorrect length information")))
    ∧ ∀ ch, Chunk.try_from bytes = .ok ch
        → bytes.length = u32_from_be_bytes (bytes.take 4) + 12 := by
  constructor
  · intro hne
    unfold Chunk.try_from
    rw [if_neg (show ¬ bytes.length < 4 by omega)]
    rw [if_pos hne]
  · intro ch hch
    exact (try_from_ok_inv hch).1

/-- Witness for C5 at a 12-byte buffer declaring length 5. -/
theorem c5_length_check_witness :
    Chunk.try_from c5_input = .err (.custom ("Chunk contains incorrect length information")) :=
  (c5_length_check c5_input (by decide) (by decide)).1 (by decide)

/-- C6 (code bug evidence): on a buffer with a correct length field but
a non-alphabetic type code, `Chunk::try_from` does not return an
`InvalidTypeCode` error — it panics, because the code unwraps the result
of `ChunkType::try_from`. -/
theorem c6_invalid_type_panics :
    Chunk.try_from c6_input = .panic ("called unwrap on an Err value") := by
  decide

/-- C7 (code bug evidence): `Chunk::try_from` is not total — on inputs
shorter than 4 bytes the slice expression `&bytes[0..4]` panics instead
of returning an error value. -/
theorem c7_short_input_panics :
    Chunk.try_from ([] : List Nat) = .panic ("range end index 4 out of range for slice")
    ∧ Chunk.try_from ([0, 1]) = .panic ("range end index 4 out of range for slice") := by
  exact ⟨by decide, by decide⟩

theorem strBytes_of_alpha (s : List Char) (h : s.all charIsAsciiAlpha = true) :
    strBytes s = s.map Char.toNat := by
  induction s with
  | nil => rfl
  | cons c cst ih =>
    rw [List.all_cons, Bool.and_eq_true] at h
    have hc : c.toNat < 128 := by
      have h1 := h.1
      simp [charIsAsciiAlpha, isAsciiAlphaByte] at h1
      omega
    have hone : utf8Bytes c = [c.toNat] := by
      unfold utf8Bytes
      rw [if_pos hc]
    simp only [strBytes, List.map_cons, List.flatten_cons] at *
    rw [hone, ih h.2]
    rfl

/-- C8: `ChunkType::from_str` succeeds exactly on strings whose UTF-8
byte length is 4 and whose characters are all ASCII letters, preserving
the bytes and their case; on every other string it fails with an error
(the two `Custom` messages realizing `InvalidTypeCode`). -/
theorem c8_from_str_exact (s : List Char) :
    (strLen s = 4 ∧ s.all charIsAsciiAlpha = true
      → ChunkType.from_str s = .ok ⟨s.map Char.toNat⟩)
    ∧ (strLen s ≠ 4 ∨ s.all charIsAsciiAlpha = false
      → ∃ m, ChunkType.from_str s = .error (.custom m))
    ∧ ∀ t, ChunkType.from_str s = .ok t
      → strLen s = 4 ∧ s.all charIsAsciiAlpha = true ∧ t.bytes = s.map Char.toNat := by
  refine ⟨?_, ?_, ?_⟩
  · rintro ⟨hl, ha⟩
    unfold ChunkType.from_str
    rw [if_neg (fun hne => hne hl), ha]
    rw [if_neg (show ¬ (!true) = true by decide)]
    rw [strBytes_of_alpha s ha]
  · intro hcase
    unfold ChunkType.from_str
    by_cases hl : strLen s = 4
    · have ha : s.all charIsAsciiAlpha = false := by
        rcases hcase with h | h
        · exact absurd hl h
        · exact h
      rw [if_neg (fun hne => hne hl), ha]
      exact ⟨"Invalid ascii character, must be alphabetic", by rw [if_pos (by decide)]⟩
    · rw [if_pos hl]
      exact ⟨"Invalid length of chunk", rfl⟩
  · intro t ht
    unfold ChunkType.from_str at ht
    by_cases hl : strLen s = 4
    · rw [if_neg (fun hne => hne hl)] at ht
      by_cases ha : s.all charIsAsciiAlpha = true
      · rw [ha, if_neg (show ¬ (!true) = true by decide)] at ht
        cases ht
        exact ⟨hl, ha, strBytes_of_alpha s ha⟩
      · rw [Bool.not_eq_true] at ha
        rw [ha, if_pos (by decide)] at ht
        exact Except.noConfusion ht
    · rw [if_pos hl] at ht
      exact Except.noConfusion ht

/-- Witness for C8 at the string `"RuSt"`. -/
theorem c8_from_str_witness :
    ChunkType.from_str ("RuSt".toList) = .ok rustT :=
  (c8_from_str_exact ("RuSt".toList)).1 (by decide)

/-- C9: for every validly constructed type code, `is_critical`,
`is_public` and `is_reserved_bit_valid` hold exactly when bytes 0, 1, 2
are uppercase ASCII letters, `is_safe_to_copy` exactly when byte 3 is a
lowercase ASCII letter, and `is_valid` equals
`!is_public && is_reserved_bit_valid`; concretely `"RuSt"` is critical,
not public, reserved-bit-valid, safe to copy and valid, while `"Rust"`
is not reserved-bit-valid and not valid. -/
theorem c9_type_flags :
    (∀ t : ChunkType, t.Valid →
      ((t.is_critical = true ↔ (65 ≤ t.at_char 0 ∧ t.at_char 0 ≤ 90))
        ∧ (t.is_public = true ↔ (65 ≤ t.at_char 1 ∧ t.at_char 1 ≤ 90))
        ∧ (t.is_reserved_bit_valid = true ↔ (65 ≤ t.at_char 2 ∧ t.at_char 2 ≤ 90))
        ∧ (t.is_safe_to_copy = true ↔ (97 ≤ t.at_char 3 ∧ t.at_char 3 ≤ 122))
        ∧ t.is_valid = (!t.is_public && t.is_reserved_bit_valid)))
    ∧ (rustT.is_critical = true ∧ rustT.is_public = false
        ∧ rustT.is_reserved_bit_valid = true ∧ rustT.is_safe_to_copy = true
        ∧ rustT.is_valid = true)
    ∧ (rustLowerT.is_reserved_bit_valid = false ∧ rustLowerT.is_valid = false) := by
  refine ⟨?_, by decide, by decide⟩
  intro t _
  refine ⟨?_, ?_, ?_, ?_, rfl⟩ <;>
    simp [ChunkType.is_critical, ChunkType.is_public, ChunkType.is_reserved_bit_valid,
      ChunkType.is_safe_to_copy, isUppercaseByte, isLowercaseByte]

/-- Witness for C9 at `"RuSt"`. -/
theorem c9_type_flags_witness :
    rustT.Valid ∧ (rustT.is_critical = true ↔ (65 ≤ rustT.at_char 0 ∧ rustT.at_char 0 ≤ 90)) :=
  ⟨by decide, (c9_type_flags.1 rustT (by decide)).1⟩

/-- C10: the CRC-32 (ISO-HDLC) checksum over `"RuSt"` followed by the
42-byte payload `"This is where your secret message will be!"` is
exactly 2882656334, and `Chunk::new` with these arguments stores
`length == 42` and `crc == 2882656334`. -/
theorem c10_crc_value :
    checksum_32 (rustT.bytes ++ secret_message) = 2882656334
    ∧ (Chunk.new rustT secret_message).length = 42
    ∧ (Chunk.new rustT secret_message).crc = 2882656334 := by
  refine ⟨by decide, by decide, by decide⟩

end PngChat
